import Mathlib

/-!
Verification of the remote S3 "ancient store" (`core/rawdb/freezer_remote_s3.go`,
repository etclabscore/multi-geth) against its natural-language specification.

The Go code is shallowly embedded below.  The S3 service itself is an external
collaborator: a remote bucket is modelled as an association list from group
keys to decoded group bodies plus an optional durable index marker.  Group
object keys in Go are zero-padded decimal strings `blocks/%09d.json`; since the
padding makes lexicographic order coincide with numeric order of the base
number, keys are modelled directly by the base number (a `Nat`).  The RLP
record codec is likewise external: a record is modelled as the blobs it
round-trips, keyed by its header number.  Go `uint64` counters stay well below
2^64 in every statement here, so they are modelled as `Nat`.

Go panics (both explicit `panic(...)` calls and runtime index-out-of-range
faults from `f.cacheS[0]` on an empty slice) are modelled as a distinct
`Outcome.panic` result, separate from returned errors.
-/

namespace FreezerS3

/-- Binary blobs (RLP encodings, JSON bodies) are byte lists. -/
abbrev Bytes := List Nat

/-- The zero value of `common.Hash` ([32]byte), used by `Ancient` to detect
that a downloaded group did not contain the requested number. -/
def zeroHash : Bytes := List.replicate 32 0

/-- The five freezer table kinds accepted by `RLPBytesForKind`
(`freezerHashTable`, `freezerHeaderTable`, `freezerBodiesTable`,
`freezerReceiptTable`, `freezerDifficultyTable`). -/
inductive Kind where
  | hash | header | body | receipts | difficulty
deriving DecidableEq

/-- One archival record (`AncientObjectS3` in Go).  The RLP codec is an
external collaborator, so each component is kept as the blob it encodes to;
`number` models `Header.Number`, the field the Go code reads back from decoded
group bodies. -/
structure AncientObjectS3 where
  number : Nat
  hashB : Bytes
  headerB : Bytes
  bodyB : Bytes
  receiptsB : Bytes
  difficultyB : Bytes
deriving DecidableEq

/-- The Go zero value `AncientObjectS3{}` (`o := &AncientObjectS3{}`). -/
def defaultObj : AncientObjectS3 := ⟨0, zeroHash, [], [], [], []⟩

/-- Model of `RLPBytesForKind`: select the binary encoding of one component. -/
def AncientObjectS3.rlpBytesForKind (o : AncientObjectS3) (kind : Kind) : Bytes :=
  match kind with
  | .hash => o.hashB
  | .header => o.headerB
  | .body => o.bodyB
  | .receipts => o.receiptsB
  | .difficulty => o.difficultyB

/-- Association-list lookup, modelling Go map indexing `m[k]` (comma-ok form). -/
def lookupA {α : Type} : List (Nat × α) → Nat → Option α
  | [], _ => none
  | (k', v) :: t, k => if k' = k then some v else lookupA t k

/-- Association-list insert, modelling Go map assignment `m[k] = v`
(replaces an existing binding, otherwise appends). -/
def insertA {α : Type} : List (Nat × α) → Nat → α → List (Nat × α)
  | [], k, v => [(k, v)]
  | (k', v') :: t, k, v =>
    if k' = k then (k', v) :: t else (k', v') :: insertA t k v

/-- Association-list removal, modelling Go `delete(m, k)`. -/
def eraseA {α : Type} : List (Nat × α) → Nat → List (Nat × α)
  | [], _ => []
  | (k', v') :: t, k => if k' = k then t else (k', v') :: eraseA t k

/-- Model of `sliceIndexOf` from the source: index of the first occurrence of `n`
in `sl`, or -1. -/
def sliceIndexOf : List Nat → Nat → Int
  | [], _ => -1
  | s :: t, n =>
    if s = n then 0
    else
      let r := sliceIndexOf t n
      if r < 0 then -1 else r + 1

/-- Index of the LAST occurrence of `n` in `l`; models the `cachedAt`
scan in `TruncateAncients` (`if v == items { cachedAt = i }` keeps the
last match). -/
def lastIdxOf : List Nat → Nat → Option Nat
  | [], _ => none
  | v :: t, n =>
    match lastIdxOf t n with
    | some i => some (i + 1)
    | none => if v = n then some 0 else none

/-- Model of `objectKeyForN`: the storage key of the group owning record `n`
(`(n / f.objectGroupSize) * f.objectGroupSize`, rendered in Go as the padded
string `blocks/%09d.json` whose order agrees with the base number). -/
def keyForBase (gs n : Nat) : Nat := n / gs * gs

/-- Errors returned (not panicked) by the store: `errOutOfBounds`,
`errNotSupported`, and propagated remote I/O errors. -/
inductive FreezerErr where
  | outOfBounds
  | notSupported
  | ioErr : String → FreezerErr
deriving DecidableEq

/-- Result of a store operation: a normal return, a returned error, or a Go
panic (explicit or runtime index-out-of-range). -/
inductive Outcome (α : Type) where
  | ok : α → Outcome α
  | err : FreezerErr → Outcome α
  | panic : String → Outcome α
deriving DecidableEq

/-- Errors the remote object store can report on a download:
`s3.ErrCodeNoSuchKey` or any other transport failure. -/
inductive S3Err where
  | noSuchKey
  | ioErr : String → S3Err
deriving DecidableEq

/-- The mutable state of `freezerRemoteS3`, together with the remote bucket it
talks to.  `cache`/`cacheS` are the write cache map and its number slice,
`retrieved` is the read-through cache of the most recently fetched group,
`remoteGroups` the uploaded group objects keyed by base number, and
`remoteMarker` the durable `index-marker` object (absent means 0). -/
structure FreezerState where
  frozen : Nat
  objectGroupSize : Nat
  cache : List (Nat × AncientObjectS3)
  cacheS : List Nat
  retrieved : List (Nat × AncientObjectS3)
  remoteGroups : List (Nat × List AncientObjectS3)
  remoteMarker : Option Nat
deriving DecidableEq

/-- Model of `AppendAncient`: decode the blobs (codec external, the already-decoded
record `o` is taken directly), insert into the write cache, check the
group-alignment of `cacheS[0]`, and advance the frozen counter.  The Go code
performs NO comparison of `number` against the frozen counter. -/
def appendAncient (st : FreezerState) (number : Nat) (o : AncientObjectS3) :
    Outcome FreezerState :=
  let cache' := insertA st.cache number o
  let cacheS' := st.cacheS ++ [number]
  if cacheS'.headD 0 % st.objectGroupSize ≠ 0 then
    .panic "cache does not begin at mod"
  else
    .ok { st with cache := cache', cacheS := cacheS', frozen := st.frozen + 1 }

/-- The body of the upload loop in `pushCache`: walk `cacheS` accumulating the
current group (`set`), the unsealed remainder (`remainders`) and the batch of
uploads.  A group is sealed when its last member ends a group
(`(n+1) % objectGroupSize == 0`) or when the element is the last of the cache;
`remainders` is reset only in the former case. -/
def pushLoop (gs : Nat) (cache : List (Nat × AncientObjectS3)) :
    List Nat → List AncientObjectS3 → List Nat →
    List (Nat × List AncientObjectS3) →
    List Nat × List (Nat × List AncientObjectS3)
  | [], _set, rem, ups => (rem, ups)
  | n :: rest, set, rem, ups =>
    let set1 := set ++ [(lookupA cache n).getD defaultObj]
    let rem1 := rem ++ [n]
    let eg : Bool := (n + 1) % gs == 0
    let sealNow : Bool := eg || rest.isEmpty
    let ups1 := if sealNow then ups ++ [(keyForBase gs n, set1)] else ups
    let set2 := if sealNow then [] else set1
    let rem2 := if eg then [] else rem1
    pushLoop gs cache rest set2 rem2 ups1

/-- Model of `pushCache`, also returning the batch of uploads it performed (the objects
handed to `UploadWithIterator`).  After uploading, entries not in the
remainder are evicted from the cache map, `cacheS` becomes the remainder, the
(re-checked) invariant `cacheS[0] % objectGroupSize == 0` is asserted — an
empty remainder makes the Go indexing `f.cacheS[0]` itself panic — and the
read-through cache is dropped. -/
def pushCacheCore (st : FreezerState) :
    Outcome (FreezerState × List (Nat × List AncientObjectS3)) :=
  if st.cacheS.length = 0 then .ok (st, [])
  else if st.cacheS.headD 0 % st.objectGroupSize ≠ 0 then
    .panic "cache does not begin at mod"
  else
    let p := pushLoop st.objectGroupSize st.cache st.cacheS [] [] []
    let remote' := p.2.foldl (fun m u => insertA m u.1 u.2) st.remoteGroups
    let cache' := st.cacheS.foldl
      (fun m n => if sliceIndexOf p.1 n < 0 then eraseA m n else m) st.cache
    if p.1 = [] then .panic "index out of range"
    else if p.1.headD 0 % st.objectGroupSize ≠ 0 then
      .panic "cache does not begin at mod"
    else
      .ok ({ st with
               remoteGroups := remote'
               cache := cache'
               cacheS := p.1
               retrieved := [] }, p.2)

/-- Model of `Sync`, also returning the uploads performed: a no-op when the cache map is
empty, otherwise `pushCache` followed by writing the durable marker with the
current frozen counter. -/
def syncCore (st : FreezerState) :
    Outcome (FreezerState × List (Nat × List AncientObjectS3)) :=
  if st.cache.length = 0 then .ok (st, [])
  else
    match pushCacheCore st with
    | .ok (st1, ups) => .ok ({ st1 with remoteMarker := some st1.frozen }, ups)
    | .err e => .err e
    | .panic m => .panic m

/-- Model of `Sync` proper. -/
def sync (st : FreezerState) : Outcome FreezerState :=
  match syncCore st with
  | .ok (st', _) => .ok st'
  | .err e => .err e
  | .panic m => .panic m

/-- Model of `TruncateAncients`.  Reads `f.cacheS[0]` unconditionally first (a runtime
panic on an empty slice), deletes cached entries at or above the target, and
either truncates `cacheS` in place (target found in the cache) or rebuilds the
cache from the remote group containing the target, range-deletes remote
objects and re-pushes the recovered prefix.  The `ListObjects` `Marker` is
exclusive, so the batch delete removes exactly the group objects whose key is
strictly greater than the key for `items`; the `index-marker` object (whose
key sorts after all `blocks/` keys) is also swept up by that listing but is
rewritten by `setIndexMarker` before the call returns, so only its final value
is modelled. -/
def truncateAncients (st : FreezerState) (items : Nat) : Outcome FreezerState :=
  if st.cacheS = [] then .panic "index out of range"
  else if st.cacheS.headD 0 % st.objectGroupSize ≠ 0 then
    .panic "cache does not begin at mod"
  else
    let cache1 := st.cacheS.foldl
      (fun m v => if items ≤ v then eraseA m v else m) st.cache
    match lastIdxOf st.cacheS items with
    | some i =>
      .ok { st with
              cache := cache1
              cacheS := st.cacheS.take i
              remoteMarker := some items
              frozen := items }
    | none =>
      -- the source re-checks the (unchanged) cacheS[0] alignment here
      if st.cacheS.headD 0 % st.objectGroupSize ≠ 0 then
        .panic "cache does not begin at mod"
      else
        let rebuilt : Outcome (List (Nat × AncientObjectS3) × List Nat) :=
          if items % st.objectGroupSize ≠ 0 then
            match lookupA st.remoteGroups (keyForBase st.objectGroupSize items) with
            | none => .err .outOfBounds
            | some target =>
              let kept := target.filter (fun t => t.number < items)
              let cache2 := kept.foldl (fun m t => insertA m t.number t) []
              let cacheS2 := List.insertionSort (· ≤ ·)
                (kept.map (fun t => t.number))
              .ok (cache2, cacheS2)
          else .ok ([], [])
        match rebuilt with
        | .err e => .err e
        | .panic m => .panic m
        | .ok (cache2, cacheS2) =>
          let st1 := { st with
            cache := cache2
            cacheS := cacheS2
            remoteGroups := st.remoteGroups.filter
              (fun p => p.1 ≤ keyForBase st.objectGroupSize items) }
          let afterPush : Outcome FreezerState :=
            if st1.cache.length > 0 then
              match pushCacheCore st1 with
              | .ok (st2, _) => .ok st2
              | .err e => .err e
              | .panic m => .panic m
            else .ok st1
          match afterPush with
          | .ok st2 => .ok { st2 with remoteMarker := some items, frozen := items }
          | .err e => .err e
          | .panic m => .panic m

/-- Model of `Ancient`, parametrized by the remote download capability so that arbitrary
transport failures can be injected.  Returns the value together with the new
read-through cache (`f.retrieved`, rebuilt wholesale from the downloaded
group).  After a download, the record whose header number matches is selected
by a scan whose accumulator starts from the Go zero value; a still-zero hash
afterwards is the `panic("bad")` path. -/
def ancientCore (fetch : Nat → Except S3Err (List AncientObjectS3))
    (st : FreezerState) (kind : Kind) (number : Nat) :
    Outcome (Option Bytes × List (Nat × AncientObjectS3)) :=
  if st.frozen ≤ number then .ok (none, st.retrieved)
  else
    match lookupA st.cache number with
    | some v => .ok (some (v.rlpBytesForKind kind), st.retrieved)
    | none =>
      match lookupA st.retrieved number with
      | some v => .ok (some (v.rlpBytesForKind kind), st.retrieved)
      | none =>
        match fetch (keyForBase st.objectGroupSize number) with
        | .error .noSuchKey => .err .outOfBounds
        | .error (.ioErr s) => .err (.ioErr s)
        | .ok target =>
          let retrieved' := target.foldl (fun m v => insertA m v.number v) []
          let o := target.foldl
            (fun acc v => if v.number = number then v else acc) defaultObj
          if o.hashB = zeroHash then .panic "bad"
          else .ok (some (o.rlpBytesForKind kind), retrieved')

/-- The download capability backed by the modelled remote bucket: an absent
key reports `NoSuchKey`. -/
def stateFetch (st : FreezerState) (key : Nat) :
    Except S3Err (List AncientObjectS3) :=
  match lookupA st.remoteGroups key with
  | some v => .ok v
  | none => .error .noSuchKey

/-- The value returned by `Ancient` against the store's own remote bucket. -/
def ancientVal (st : FreezerState) (kind : Kind) (number : Nat) :
    Outcome (Option Bytes) :=
  match ancientCore (stateFetch st) st kind number with
  | .ok (v, _) => .ok v
  | .err e => .err e
  | .panic m => .panic m

/-- Model of `initCache`: download the group containing `n`, decode it, append every
record to the (at startup, empty) write cache, and assert the group alignment
of `cacheS[0]` — on an empty result that very indexing panics. -/
def initCache (st : FreezerState) (n : Nat) : Outcome FreezerState :=
  match lookupA st.remoteGroups (keyForBase st.objectGroupSize n) with
  | none => .err .outOfBounds
  | some target =>
    let cacheS' := st.cacheS ++ target.map (fun v => v.number)
    let cache' := target.foldl (fun m v => insertA m v.number v) st.cache
    if cacheS' = [] then .panic "index out of range"
    else if cacheS'.headD 0 % st.objectGroupSize ≠ 0 then
      .panic "cache does not begin at mod"
    else .ok { st with cache := cache', cacheS := cacheS' }

/-- Startup (`newFreezerRemoteS3` after the session/bucket plumbing): read the
durable marker (absent means 0) into the frozen counter, then, when it is
positive, rehydrate the write cache via `initCache` AT the frozen count
itself (`f.initCache(n)` — not `n - 1`). -/
def startup (gs : Nat) (remoteGroups : List (Nat × List AncientObjectS3))
    (remoteMarker : Option Nat) : Outcome FreezerState :=
  let n := remoteMarker.getD 0
  let st0 : FreezerState :=
    { frozen := n
      objectGroupSize := gs
      cache := []
      cacheS := []
      retrieved := []
      remoteGroups := remoteGroups
      remoteMarker := remoteMarker }
  if 0 < n then initCache st0 n else .ok st0

/-- A fresh store over an empty bucket with the given group size. -/
def initState (gs : Nat) : FreezerState :=
  { frozen := 0
    objectGroupSize := gs
    cache := []
    cacheS := []
    retrieved := []
    remoteGroups := []
    remoteMarker := none }

/-- One mutating operation of the store. -/
inductive Op where
  | append : Nat → AncientObjectS3 → Op
  | flush : Op
  | truncate : Nat → Op

/-- Apply one operation. -/
def applyOp (st : FreezerState) : Op → Outcome FreezerState
  | .append n o => appendAncient st n o
  | .flush => sync st
  | .truncate items => truncateAncients st items

/-- Run a sequence of operations, stopping at the first error or panic. -/
def run (st : FreezerState) : List Op → Outcome FreezerState
  | [] => .ok st
  | op :: rest =>
    match applyOp st op with
    | .ok st' => run st' rest
    | .err e => .err e
    | .panic m => .panic m

/-- An append is in order at `st` when its number is at least every number
already in the write cache; in-sequence appends (`number == frozen`) are.
Sync and Truncate are unconstrained. -/
def opOk (st : FreezerState) : Op → Bool
  | .append n _ => st.cacheS.all (fun m => m ≤ n)
  | _ => true

/-- Every operation of the sequence is in order at the state it runs in. -/
def seqGood (st : FreezerState) : List Op → Bool
  | [] => true
  | op :: rest =>
    opOk st op &&
      (match applyOp st op with
       | .ok st' => seqGood st' rest
       | _ => true)

/-- The smallest element of a number list (0 for the empty list). -/
def minOf : List Nat → Nat
  | [] => 0
  | n :: t => t.foldl Nat.min n

/-- A concrete record with a non-zero hash, used in concrete scenarios. -/
def mkObj (i : Nat) : AncientObjectS3 := ⟨i, [1], [2, i], [3, i], [4, i], [5, i]⟩

/-! ## Derived projections, invariants and concrete scenario states -/

/-- The store of claim C1's failing input: one committed record, FrozenCount 1. -/
def c1St : FreezerState :=
  { frozen := 1
    objectGroupSize := 4
    cache := [(0, mkObj 0)]
    cacheS := [0]
    retrieved := []
    remoteGroups := []
    remoteMarker := some 1 }

/-- Remote bucket of claim C2's failing input: exactly one full group
(records 0..3 at base 0) and durable marker 4, i.e. the state durably reached
by appending records 0..3 with group size 4 and syncing. -/
def c2Groups : List (Nat × List AncientObjectS3) :=
  [(0, [mkObj 0, mkObj 1, mkObj 2, mkObj 3])]

/-- The remainder left in the write cache by the `pushCache` loop. -/
def pushRem (st : FreezerState) : List Nat :=
  (pushLoop st.objectGroupSize st.cache st.cacheS [] [] []).1

/-- The batch of uploads performed by the `pushCache` loop. -/
def pushUps (st : FreezerState) : List (Nat × List AncientObjectS3) :=
  (pushLoop st.objectGroupSize st.cache st.cacheS [] [] []).2

/-- The state left by a successful non-trivial `pushCache`. -/
def pushedState (st : FreezerState) : FreezerState :=
  { st with
    remoteGroups := (pushUps st).foldl (fun m u => insertA m u.1 u.2) st.remoteGroups
    cache := st.cacheS.foldl
      (fun m n => if sliceIndexOf (pushRem st) n < 0 then eraseA m n else m) st.cache
    cacheS := pushRem st
    retrieved := [] }

/-- A store whose read-through cache holds a previously fetched group entry. -/
def c9St : FreezerState :=
  { frozen := 1
    objectGroupSize := 4
    cache := [(0, mkObj 0)]
    cacheS := [0]
    retrieved := [(9, mkObj 9)]
    remoteGroups := []
    remoteMarker := some 1 }

/-- The state after appending record 1 to `c9St`. -/
def c9StAfter : FreezerState :=
  { c9St with
      cache := [(0, mkObj 0), (1, mkObj 1)]
      cacheS := [0, 1]
      frozen := 2 }

/-- The state `sync` leaves when run on `c9St`. -/
def c9Synced : FreezerState :=
  { c9St with retrieved := [], remoteGroups := [(0, [mkObj 0])] }

/-- Appends of records 0..10 (claim C4's scenario, group size 4). -/
def c4AppendOps : List Op := (List.range 11).map (fun i => Op.append i (mkObj i))

/-- The store state after appending 0..10 and truncating to 5: the target was
still cached, so the cache is cut back to records 0..4 and the marker and
counter are set to 5. -/
def c4StT : FreezerState :=
  { frozen := 5
    objectGroupSize := 4
    cache := [(0, mkObj 0), (1, mkObj 1), (2, mkObj 2), (3, mkObj 3), (4, mkObj 4)]
    cacheS := [0, 1, 2, 3, 4]
    retrieved := []
    remoteGroups := []
    remoteMarker := some 5 }

/-- The store state after the subsequent Sync: group 0 (records 0..3) and the
partial group 4 (record 4 only) uploaded, record 4 retained as remainder. -/
def c4StS : FreezerState :=
  { c4StT with
      cache := [(4, mkObj 4)]
      cacheS := [4]
      remoteGroups := [(0, [mkObj 0, mkObj 1, mkObj 2, mkObj 3]), (4, [mkObj 4])] }

/-- A store holding one uncommitted partial group: record 0, group size 4. -/
def c5St : FreezerState :=
  { frozen := 1
    objectGroupSize := 4
    cache := [(0, mkObj 0)]
    cacheS := [0]
    retrieved := []
    remoteGroups := []
    remoteMarker := none }

/-- State `c5St` after one Sync: group 0 uploaded (still partial), marker written. -/
def c5StSynced : FreezerState :=
  { c5St with
      remoteGroups := [(0, [mkObj 0])]
      remoteMarker := some 1 }

/-- The structural invariant maintained on the write cache's number slice by
in-order use: ascending order, and group alignment of the first element. -/
def Inv (st : FreezerState) : Prop :=
  List.Pairwise (· ≤ ·) st.cacheS ∧
    (st.cacheS ≠ [] → st.cacheS.headD 0 % st.objectGroupSize = 0)

/-- Operations reproducing claim C6's scenario with group size 4: in-order
appends 0..4, a Sync, then an out-of-order append of 2. -/
def c6BadOps : List Op :=
  [Op.append 0 (mkObj 0), Op.append 1 (mkObj 1), Op.append 2 (mkObj 2),
   Op.append 3 (mkObj 3), Op.append 4 (mkObj 4), Op.flush, Op.append 2 (mkObj 2)]

/-- The store state those operations end in. -/
def c6BadSt : FreezerState :=
  { frozen := 6
    objectGroupSize := 4
    cache := [(4, mkObj 4), (2, mkObj 2)]
    cacheS := [4, 2]
    retrieved := []
    remoteGroups := [(0, [mkObj 0, mkObj 1, mkObj 2, mkObj 3]), (4, [mkObj 4])]
    remoteMarker := some 5 }

/-- The state reached by appending record 0 to a fresh store of group size 4,
used to witness C6's amended statement. -/
def c6WSt : FreezerState :=
  { frozen := 1
    objectGroupSize := 4
    cache := [(0, mkObj 0)]
    cacheS := [0]
    retrieved := []
    remoteGroups := []
    remoteMarker := none }

end FreezerS3

namespace FreezerS3

/-! ## Shared helper lemmas -/

/-- Reading short-circuits to "not present" when the frozen counter does not
exceed the number, for ANY download capability (hence without any fetch). -/
theorem ancientCore_frozen_le (fetch : Nat → Except S3Err (List AncientObjectS3))
    (st : FreezerState) (kind : Kind) (n : Nat) (h : st.frozen ≤ n) :
    ancientCore fetch st kind n = .ok (none, st.retrieved) := by
  simp [ancientCore, h]

/-- Value-level form of `ancientCore_frozen_le`. -/
theorem ancientVal_frozen_le (st : FreezerState) (kind : Kind) (n : Nat)
    (h : st.frozen ≤ n) : ancientVal st kind n = .ok none := by
  simp [ancientVal, ancientCore_frozen_le _ _ _ _ h]

end FreezerS3

namespace FreezerS3

/-! ## C1 -/

/-- C1 (code bug): `AppendAncient` performs no ordering check at all.  With
FrozenCount = 1, appending number 5 (≠ 1) SUCCEEDS, stages the record, and
advances the counter to 2 — contradicting the claim (and the function's own
doc comment) that any number other than the current FrozenCount fails with an
ordering violation leaving the state unchanged. -/
theorem c1_out_of_order_append_accepted :
    c1St.frozen = 1 ∧
    appendAncient c1St 5 (mkObj 5) =
      .ok { c1St with
              cache := [(0, mkObj 0), (5, mkObj 5)]
              cacheS := [0, 5]
              frozen := 2 } := by
  decide

/-! ## C2 -/

/-- C2 (code bug): at startup with FrozenCount = 4 recovered from the marker
and group size 4, the code downloads the group keyed by FrozenCount itself
(`f.initCache(n)`, base 4) instead of the tail group containing
FrozenCount - 1 (base 0).  The base-4 object does not exist, so startup fails
with the out-of-range error even though the marker and the tail group are both
present — while the claim says startup succeeds and rehydrates the cache. -/
theorem c2_startup_group_boundary_fails :
    startup 4 c2Groups (some 4) = .err .outOfBounds ∧
    lookupA c2Groups (keyForBase 4 (4 - 1)) =
      some [mkObj 0, mkObj 1, mkObj 2, mkObj 3] := by
  decide

/-! ## C7 -/

/-- C7 (confirmed): when a read must go to the remote store (number below the
frozen boundary, both caches miss), a `NoSuchKey` report yields the distinct
out-of-range error — in particular when the owning group is absent from the
bucket — while any other transport failure is propagated as a generic I/O
error. -/
theorem c7_read_error_discrimination (st : FreezerState) (kind : Kind) (n : Nat)
    (h1 : n < st.frozen) (h2 : lookupA st.cache n = none)
    (h3 : lookupA st.retrieved n = none) :
    ancientCore (fun _ => .error .noSuchKey) st kind n = .err .outOfBounds ∧
    (∀ s, ancientCore (fun _ => .error (.ioErr s)) st kind n = .err (.ioErr s)) ∧
    (lookupA st.remoteGroups (keyForBase st.objectGroupSize n) = none →
      ancientVal st kind n = .err .outOfBounds) := by
  have hnle : ¬ st.frozen ≤ n := by omega
  refine ⟨?_, ?_, ?_⟩
  · simp [ancientCore, hnle, h2, h3]
  · intro s
    simp [ancientCore, hnle, h2, h3]
  · intro h4
    simp [ancientVal, ancientCore, stateFetch, hnle, h2, h3, h4]

/-- Witness for C7 at a concrete input: FrozenCount 1, empty caches, empty
bucket; reading record 0 fails with the out-of-range error. -/
theorem c7_read_error_discrimination_witness :
    ancientVal { initState 4 with frozen := 1 } Kind.hash 0 = .err .outOfBounds :=
  (c7_read_error_discrimination { initState 4 with frozen := 1 } Kind.hash 0
    (by decide) (by decide) (by decide)).2.2 (by decide)

/-! ## C8 -/

/-- C8 (confirmed): for every kind and every number at or above the frozen
count, `Ancient` returns "not present" (nil value, no error), independently of
the download capability — so no remote fetch takes place — and leaves the
read-through cache untouched. -/
theorem c8_read_above_frozen_not_present
    (fetch : Nat → Except S3Err (List AncientObjectS3))
    (st : FreezerState) (kind : Kind) (n : Nat) (h : st.frozen ≤ n) :
    ancientCore fetch st kind n = .ok (none, st.retrieved) ∧
    ancientVal st kind n = .ok none :=
  ⟨ancientCore_frozen_le fetch st kind n h, ancientVal_frozen_le st kind n h⟩

/-- Witness for C8 at a concrete input: a fresh store, reading record 3. -/
theorem c8_read_above_frozen_not_present_witness :
    ancientVal (initState 4) Kind.body 3 = .ok none :=
  (c8_read_above_frozen_not_present (stateFetch (initState 4)) (initState 4)
    Kind.body 3 (by decide)).2

/-! ## C10 -/

/-- C10 (confirmed): `TruncateAncients` reads `f.cacheS[0]` before anything
else, so on a store whose write cache number slice is empty every call panics
with an index-out-of-range fault, for every target value. -/
theorem c10_truncate_empty_cache_panics (st : FreezerState) (items : Nat)
    (h : st.cacheS = []) :
    truncateAncients st items = .panic "index out of range" := by
  simp [truncateAncients, h]

/-- Witness for C10 at a concrete input: a fresh store, truncating to 7. -/
theorem c10_truncate_empty_cache_panics_witness :
    truncateAncients (initState 4) 7 = .panic "index out of range" :=
  c10_truncate_empty_cache_panics (initState 4) 7 (by decide)

end FreezerS3

namespace FreezerS3

/-! ## C3 -/

/-- In the `pushCache` loop, whenever the last element of the walked slice
ends a group, the final `remainders` is empty (the reset after the last
end-of-group element is never refilled), whatever the accumulators were. -/
theorem pushLoop_rem_nil_of_endGroup (gs : Nat)
    (cache : List (Nat × AncientObjectS3)) (l : List Nat)
    (hne : l ≠ []) (hlast : (l.getLastD 0 + 1) % gs = 0) :
    ∀ set rem ups, (pushLoop gs cache l set rem ups).1 = [] := by
  induction l with
  | nil => exact absurd rfl hne
  | cons n rest ih =>
    intro set rem ups
    cases rest with
    | nil =>
      have hn : (n + 1) % gs = 0 := by simpa using hlast
      simp [pushLoop, hn]
    | cons m rest' =>
      have hlast' : ((m :: rest').getLastD 0 + 1) % gs = 0 := by
        simpa [List.getLastD_cons] using hlast
      simp only [pushLoop]
      exact ih (by simp) hlast' _ _ _

/-- C3 (confirmed): on a non-empty write cache that consists only of complete
groups — the last (largest) cached number `n` satisfies
`(n+1) % objectGroupSize == 0` — `Sync` uploads everything, empties the
retained remainder, and then evaluates `f.cacheS[0]` on the now-empty slice,
so the call panics with an index-out-of-range fault instead of returning. -/
theorem c3_sync_panics_when_only_complete_groups (st : FreezerState)
    (hc : st.cache ≠ []) (hs : st.cacheS ≠ [])
    (hhead : st.cacheS.headD 0 % st.objectGroupSize = 0)
    (_hmax : ∀ m ∈ st.cacheS, m ≤ st.cacheS.getLastD 0)
    (hlast : (st.cacheS.getLastD 0 + 1) % st.objectGroupSize = 0) :
    sync st = .panic "index out of range" := by
  have hrem := pushLoop_rem_nil_of_endGroup st.objectGroupSize st.cache st.cacheS
    hs hlast [] [] []
  have hhead' : st.cacheS.head?.getD 0 % st.objectGroupSize = 0 := by
    simpa [List.headD_eq_head?_getD] using hhead
  unfold sync syncCore pushCacheCore
  simp [List.length_eq_zero, hc, hs, hhead, hhead', hrem]

/-- Witness for C3 at a concrete input: group size 4 with exactly records
0..3 cached. -/
theorem c3_sync_panics_when_only_complete_groups_witness :
    sync { frozen := 4
           objectGroupSize := 4
           cache := [(0, mkObj 0), (1, mkObj 1), (2, mkObj 2), (3, mkObj 3)]
           cacheS := [0, 1, 2, 3]
           retrieved := []
           remoteGroups := []
           remoteMarker := none } = .panic "index out of range" :=
  c3_sync_panics_when_only_complete_groups _ (by decide) (by decide) (by decide)
    (by decide) (by decide)

end FreezerS3

namespace FreezerS3

/-! ## Characterization of pushCache and Sync -/

theorem pushCacheCore_nil (st : FreezerState) (hs : st.cacheS = []) :
    pushCacheCore st = .ok (st, []) := by
  simp [pushCacheCore, hs]

theorem pushCacheCore_eq (st : FreezerState) (hs : st.cacheS ≠ [])
    (hh : st.cacheS.headD 0 % st.objectGroupSize = 0)
    (hr : pushRem st ≠ [])
    (hrh : (pushRem st).headD 0 % st.objectGroupSize = 0) :
    pushCacheCore st = .ok (pushedState st, pushUps st) := by
  unfold pushCacheCore
  rw [if_neg (by simpa [List.length_eq_zero] using hs), if_neg (by simpa using hh)]
  simp only [pushedState, pushRem, pushUps] at *
  rw [if_neg hr, if_neg (by simpa using hrh)]

theorem pushCacheCore_ok_inv (st st1 : FreezerState)
    (ups : List (Nat × List AncientObjectS3)) (hs : st.cacheS ≠ [])
    (h : pushCacheCore st = .ok (st1, ups)) :
    st.cacheS.headD 0 % st.objectGroupSize = 0 ∧
    pushRem st ≠ [] ∧
    (pushRem st).headD 0 % st.objectGroupSize = 0 ∧
    st1 = pushedState st ∧ ups = pushUps st := by
  unfold pushCacheCore at h
  rw [if_neg (by simpa [List.length_eq_zero] using hs)] at h
  by_cases hh : st.cacheS.headD 0 % st.objectGroupSize = 0
  · rw [if_neg (by simpa using hh)] at h
    simp only at h
    by_cases hr : (pushLoop st.objectGroupSize st.cache st.cacheS [] [] []).1 = []
    · rw [if_pos hr] at h
      exact absurd h (by simp)
    · rw [if_neg hr] at h
      by_cases hrh :
          (pushLoop st.objectGroupSize st.cache st.cacheS [] [] []).1.headD 0 %
            st.objectGroupSize = 0
      · rw [if_neg (by simpa using hrh)] at h
        refine ⟨hh, by simpa [pushRem] using hr, by simpa [pushRem] using hrh, ?_, ?_⟩
        · cases h
          rfl
        · cases h
          rfl
      · rw [if_pos (by simpa using hrh)] at h
        exact absurd h (by simp)
  · rw [if_pos (by simpa using hh)] at h
    exact absurd h (by simp)

theorem sync_empty_cache (st : FreezerState) (hc : st.cache = []) :
    sync st = .ok st := by
  simp [sync, syncCore, hc]

theorem sync_empty_cacheS (st : FreezerState) (hc : st.cache ≠ [])
    (hs : st.cacheS = []) :
    sync st = .ok { st with remoteMarker := some st.frozen } := by
  rw [sync, syncCore, if_neg (by simpa [List.length_eq_zero] using hc),
    pushCacheCore_nil st hs]

theorem sync_eq (st : FreezerState) (hc : st.cache ≠ []) (hs : st.cacheS ≠ [])
    (hh : st.cacheS.headD 0 % st.objectGroupSize = 0)
    (hr : pushRem st ≠ [])
    (hrh : (pushRem st).headD 0 % st.objectGroupSize = 0) :
    sync st = .ok { pushedState st with remoteMarker := some st.frozen } := by
  rw [sync, syncCore, if_neg (by simpa [List.length_eq_zero] using hc),
    pushCacheCore_eq st hs hh hr hrh]
  rfl

/-- Every way `sync` can return successfully: empty cache map (no-op), empty
number slice (marker rewritten only), or a full push. -/
theorem sync_ok_inv (st st' : FreezerState) (h : sync st = .ok st') :
    (st.cache = [] ∧ st' = st) ∨
    (st.cache ≠ [] ∧ st.cacheS = [] ∧
      st' = { st with remoteMarker := some st.frozen }) ∨
    (st.cache ≠ [] ∧ st.cacheS ≠ [] ∧
      st.cacheS.headD 0 % st.objectGroupSize = 0 ∧
      pushRem st ≠ [] ∧ (pushRem st).headD 0 % st.objectGroupSize = 0 ∧
      st' = { pushedState st with remoteMarker := some st.frozen }) := by
  by_cases hc : st.cache = []
  · left
    refine ⟨hc, ?_⟩
    have := sync_empty_cache st hc
    rw [this] at h
    cases h
    rfl
  · by_cases hs : st.cacheS = []
    · right; left
      refine ⟨hc, hs, ?_⟩
      have := sync_empty_cacheS st hc hs
      rw [this] at h
      cases h
      rfl
    · right; right
      rw [sync, syncCore, if_neg (by simpa [List.length_eq_zero] using hc)] at h
      rcases hpc : pushCacheCore st with ⟨st1, ups⟩ | e | m
      · rw [hpc] at h
        obtain ⟨hh, hr, hrh, hst1, -⟩ := pushCacheCore_ok_inv st st1 ups hs hpc
        refine ⟨hc, hs, hh, hr, hrh, ?_⟩
        simp only at h
        cases h
        rw [hst1]
        rfl
      · rw [hpc] at h
        exact absurd h (by simp)
      · rw [hpc] at h
        exact absurd h (by simp)

end FreezerS3

namespace FreezerS3

/-! ## C9 -/

/-- Counterexample to C9 as stated: `AppendAncient` never touches
`f.retrieved`, so after a successful Append the read-through cache still holds
its pre-mutation entry — it is NOT invalidated by every mutation. -/
theorem c9_append_keeps_read_through_cache :
    appendAncient c9St 1 (mkObj 1) = .ok c9StAfter ∧
    c9StAfter.retrieved = [(9, mkObj 9)] := by
  decide

/-- C9 (amended): the read-through cache is invalidated only by `pushCache` —
so a successful `Sync` on a store with a non-empty write cache leaves it
empty — while a successful `Append` leaves it exactly as it was. -/
theorem c9_read_through_cache_invalidation (st : FreezerState) :
    (∀ st', st.cache ≠ [] → st.cacheS ≠ [] → sync st = .ok st' →
      st'.retrieved = []) ∧
    (∀ n o st', appendAncient st n o = .ok st' →
      st'.retrieved = st.retrieved) := by
  constructor
  · intro st' hc hs h
    rcases sync_ok_inv st st' h with ⟨h1, -⟩ | ⟨-, h2, -⟩ | ⟨-, -, -, -, -, hst⟩
    · exact absurd h1 hc
    · exact absurd h2 hs
    · rw [hst]
      rfl
  · intro n o st' h
    simp only [appendAncient] at h
    split at h
    · exact absurd h (by simp)
    · cases h
      rfl

/-- Witness for C9's amended statement at concrete inputs: syncing `c9St`
clears the read-through cache, while the append above preserved it. -/
theorem c9_read_through_cache_invalidation_witness :
    c9Synced.retrieved = [] ∧ c9StAfter.retrieved = c9St.retrieved :=
  ⟨(c9_read_through_cache_invalidation c9St).1 c9Synced (by decide) (by decide)
      (by decide),
    (c9_read_through_cache_invalidation c9St).2 1 (mkObj 1) c9StAfter (by decide)⟩

end FreezerS3

namespace FreezerS3

/-! ## C4 -/

/-- C4 (confirmed): with group size 4, appending records 0..10 and calling
`TruncateAncients 5` yields FrozenCount 5; record 4 is still readable with its
data for every kind; records 5 and above read as "not present" with no error;
and after the subsequent Sync every remote group object with key ≥ the key
for 4 contains only records with number < 5. -/
theorem c4_truncate_boundary :
    run (initState 4) (c4AppendOps ++ [Op.truncate 5]) = .ok c4StT ∧
    c4StT.frozen = 5 ∧
    (∀ kind, ancientVal c4StT kind 4 = .ok (some ((mkObj 4).rlpBytesForKind kind))) ∧
    (∀ kind n, 5 ≤ n → ancientVal c4StT kind n = .ok none) ∧
    sync c4StT = .ok c4StS ∧
    c4StS.remoteGroups.all
      (fun p => decide (p.1 < keyForBase 4 4) ||
        p.2.all (fun r => decide (r.number < 5))) = true := by
  refine ⟨by decide, by decide, ?_, ?_, by decide, by decide⟩
  · intro kind
    cases kind <;> decide
  · intro kind n hn
    exact ancientVal_frozen_le c4StT kind n hn

/-- Witness for C4's hypothesis-bearing conjunct at a concrete input:
record 7 reads as "not present" after the truncation. -/
theorem c4_truncate_boundary_witness :
    ancientVal c4StT Kind.header 7 = .ok none :=
  c4_truncate_boundary.2.2.2.1 Kind.header 7 (by decide)

end FreezerS3

namespace FreezerS3

/-! ## Association-list and pushLoop lemmas -/

theorem sliceIndexOf_neg_iff (l : List Nat) (n : Nat) :
    sliceIndexOf l n < 0 ↔ n ∉ l := by
  induction l with
  | nil => simp [sliceIndexOf]
  | cons s t ih =>
    by_cases hs : s = n
    · simp [sliceIndexOf, hs]
    · simp only [sliceIndexOf, if_neg hs]
      by_cases hr : sliceIndexOf t n < 0
      · have h3 : n ∉ t := ih.mp hr
        have h4 : ¬ n = s := fun hh => hs hh.symm
        simp [if_pos hr, h3, h4]
      · have h2 : n ∈ t := by
          by_contra hmem
          exact hr (ih.mpr hmem)
        have h1 : ¬ (sliceIndexOf t n + 1 < 0) := by omega
        simp [if_neg hr, h1, h2]

theorem lookupA_insertA_self {α : Type} (m : List (Nat × α)) (k : Nat) (v : α) :
    lookupA (insertA m k v) k = some v := by
  induction m with
  | nil => simp [insertA, lookupA]
  | cons a t ih =>
    obtain ⟨a1, a2⟩ := a
    by_cases ha : a1 = k
    · simp [insertA, lookupA, ha]
    · simp [insertA, lookupA, ha, ih]

theorem insertA_of_lookupA {α : Type} (m : List (Nat × α)) (k : Nat) (v : α)
    (h : lookupA m k = some v) : insertA m k v = m := by
  induction m with
  | nil => simp [lookupA] at h
  | cons a t ih =>
    obtain ⟨a1, a2⟩ := a
    by_cases ha : a1 = k
    · simp only [lookupA, if_pos ha] at h
      cases h
      simp [insertA, ha]
    · simp only [lookupA, if_neg ha] at h
      simp [insertA, ha, ih h]

theorem lookupA_eraseA_ne {α : Type} (m : List (Nat × α)) (k k' : Nat)
    (h : k ≠ k') : lookupA (eraseA m k') k = lookupA m k := by
  induction m with
  | nil => simp [eraseA]
  | cons a t ih =>
    obtain ⟨a1, a2⟩ := a
    by_cases ha : a1 = k'
    · simp [eraseA, lookupA, ha, Ne.symm h]
    · by_cases hak : a1 = k
      · simp [eraseA, lookupA, ha, hak, h]
      · simp [eraseA, lookupA, ha, hak, ih]

theorem foldl_eraseIf_lookup {α : Type} (r : List Nat) (l : List Nat)
    (m : List (Nat × α)) (n : Nat) (hn : n ∈ r) :
    lookupA (l.foldl (fun m v => if sliceIndexOf r v < 0 then eraseA m v else m) m) n
      = lookupA m n := by
  induction l generalizing m with
  | nil => rfl
  | cons v t ih =>
    simp only [List.foldl_cons]
    by_cases hv : sliceIndexOf r v < 0
    · have hvr : v ∉ r := (sliceIndexOf_neg_iff r v).mp hv
      have hnv : n ≠ v := fun h => hvr (h ▸ hn)
      rw [if_pos hv, ih, lookupA_eraseA_ne m n v hnv]
    · rw [if_neg hv, ih]

theorem foldl_eraseIf_id {α : Type} (r : List Nat) (l : List Nat)
    (m : List (Nat × α)) (h : ∀ v ∈ l, ¬ sliceIndexOf r v < 0) :
    l.foldl (fun m v => if sliceIndexOf r v < 0 then eraseA m v else m) m = m := by
  induction l generalizing m with
  | nil => rfl
  | cons v t ih =>
    simp only [List.foldl_cons]
    rw [if_neg (h v (by simp)), ih]
    intro w hw
    exact h w (by simp [hw])

/-- One step of the `pushCache` loop, spelled out. -/
theorem pushLoop_cons (gs : Nat) (c : List (Nat × AncientObjectS3))
    (n : Nat) (rest : List Nat) (set : List AncientObjectS3) (rem : List Nat)
    (ups : List (Nat × List AncientObjectS3)) :
    pushLoop gs c (n :: rest) set rem ups =
      pushLoop gs c rest
        (if ((n + 1) % gs == 0 || rest.isEmpty) then []
          else set ++ [(lookupA c n).getD defaultObj])
        (if ((n + 1) % gs == 0 : Bool) then [] else rem ++ [n])
        (if ((n + 1) % gs == 0 || rest.isEmpty) then
          ups ++ [(keyForBase gs n, set ++ [(lookupA c n).getD defaultObj])]
        else ups) := rfl

theorem pushLoop_rem_egFree (gs : Nat) (c : List (Nat × AncientObjectS3)) :
    ∀ (l set rem : List _) (ups : List _),
      (∀ n ∈ rem, (n + 1) % gs ≠ 0) →
      ∀ n ∈ (pushLoop gs c l set rem ups).1, (n + 1) % gs ≠ 0 := by
  intro l
  induction l with
  | nil => intro set rem ups h; exact h
  | cons n rest ih =>
    intro set rem ups h
    simp only [pushLoop]
    by_cases he : (n + 1) % gs = 0
    · simp only [he, beq_self_eq_true, Bool.true_or, if_pos, if_true]
      exact ih _ _ _ (by simp)
    · have : ((n + 1) % gs == 0) = false := by simp [he]
      simp only [this, Bool.false_or]
      refine ih _ _ _ ?_
      intro m hm
      rcases List.mem_append.mp hm with hm | hm
      · exact h m hm
      · simp at hm
        exact hm ▸ he

theorem pushLoop_rem_of_egFree (gs : Nat) (c : List (Nat × AncientObjectS3)) :
    ∀ (l set rem : List _) (ups : List _),
      (∀ n ∈ l, (n + 1) % gs ≠ 0) →
      (pushLoop gs c l set rem ups).1 = rem ++ l := by
  intro l
  induction l with
  | nil => intro set rem ups _; simp [pushLoop]
  | cons n rest ih =>
    intro set rem ups h
    have he : (n + 1) % gs ≠ 0 := h n (by simp)
    have hb : ((n + 1) % gs == 0) = false := by simp [he]
    simp only [pushLoop, hb, Bool.false_or]
    rw [ih _ _ _ (fun m hm => h m (by simp [hm]))]
    simp

theorem pushLoop_ups_of_egFree (gs : Nat) (c : List (Nat × AncientObjectS3)) :
    ∀ (l set rem : List _) (ups : List _),
      (∀ n ∈ l, (n + 1) % gs ≠ 0) → l ≠ [] →
      (pushLoop gs c l set rem ups).2 =
        ups ++ [(keyForBase gs (l.getLastD 0),
          set ++ l.map (fun n => (lookupA c n).getD defaultObj))] := by
  intro l
  induction l with
  | nil => intro _ _ _ _ hne; exact absurd rfl hne
  | cons n rest ih =>
    intro set rem ups h _
    have he : (n + 1) % gs ≠ 0 := h n (by simp)
    have hb : ((n + 1) % gs == 0) = false := by simp [he]
    cases rest with
    | nil => simp [pushLoop, hb]
    | cons m rest' =>
      have h1 : ((n + 1) % gs == 0 || (m :: rest').isEmpty) = false := by
        simp [hb]
      rw [pushLoop_cons, h1, hb]
      simp only [Bool.false_eq_true, if_false]
      rw [ih _ _ _ (fun w hw => h w (by simp [hw])) (by simp)]
      simp [List.getLastD_cons]

end FreezerS3

namespace FreezerS3

/-- A non-empty `drop` has the same last element as the whole list. -/
theorem getLastD_drop (l : List Nat) (k : Nat) (h : l.drop k ≠ []) (d : Nat) :
    (l.drop k).getLastD d = l.getLastD d := by
  induction l generalizing k with
  | nil => simp at h
  | cons x t ih =>
    cases k with
    | zero => rfl
    | succ k' =>
      simp only [List.drop_succ_cons] at h ⊢
      rw [ih k' h]
      have ht : t ≠ [] := by
        intro hteq
        rw [hteq] at h
        simp at h
      cases t with
      | nil => exact absurd rfl ht
      | cons y u => simp [List.getLastD_cons]

/-- One step of the `pushCache` loop when the element ends a group: the group
is sealed and both accumulators reset. -/
theorem pushLoop_cons_eg (gs : Nat) (c : List (Nat × AncientObjectS3))
    {n : Nat} {rest : List Nat} {set : List AncientObjectS3} {rem : List Nat}
    {ups : List (Nat × List AncientObjectS3)}
    (hb : ((n + 1) % gs == 0) = true) :
    pushLoop gs c (n :: rest) set rem ups =
      pushLoop gs c rest [] []
        (ups ++ [(keyForBase gs n, set ++ [(lookupA c n).getD defaultObj])]) := by
  rw [pushLoop_cons, hb]
  simp

/-- One step of the `pushCache` loop on a non-final element that does not end
a group: the record is appended to the open set and the remainder. -/
theorem pushLoop_cons_mid (gs : Nat) (c : List (Nat × AncientObjectS3))
    {n : Nat} {rest : List Nat} {set : List AncientObjectS3} {rem : List Nat}
    {ups : List (Nat × List AncientObjectS3)}
    (hb : ((n + 1) % gs == 0) = false) (hr : rest ≠ []) :
    pushLoop gs c (n :: rest) set rem ups =
      pushLoop gs c rest (set ++ [(lookupA c n).getD defaultObj])
        (rem ++ [n]) ups := by
  rw [pushLoop_cons, hb]
  have : rest.isEmpty = false := by
    cases rest with
    | nil => exact absurd rfl hr
    | cons a t => rfl
  simp [this]

/-- The final step of the `pushCache` loop when the last element does not end
a group: the trailing partial group is sealed but the remainder is kept. -/
theorem pushLoop_singleton_noEg (gs : Nat) (c : List (Nat × AncientObjectS3))
    {n : Nat} {set : List AncientObjectS3} {rem : List Nat}
    {ups : List (Nat × List AncientObjectS3)}
    (hb : ((n + 1) % gs == 0) = false) :
    pushLoop gs c [n] set rem ups =
      (rem ++ [n],
        ups ++ [(keyForBase gs n, set ++ [(lookupA c n).getD defaultObj])]) := by
  rw [pushLoop_cons, hb]
  simp [pushLoop]

/-- The remainder computed by the `pushCache` loop is a suffix of the walked
slice prefixed by the initial remainder. -/
theorem pushLoop_rem_drop (gs : Nat) (c : List (Nat × AncientObjectS3)) :
    ∀ (l set rem : List _) (ups : List _),
      ∃ k, (pushLoop gs c l set rem ups).1 = (rem ++ l).drop k := by
  intro l
  induction l with
  | nil =>
    intro set rem ups
    exact ⟨0, by simp [pushLoop]⟩
  | cons n rest ih =>
    intro set rem ups
    by_cases he : (n + 1) % gs = 0
    · have hb : ((n + 1) % gs == 0) = true := by simp [he]
      rw [pushLoop_cons_eg gs c hb]
      obtain ⟨k, hk⟩ :=
        ih [] [] (ups ++ [(keyForBase gs n, set ++ [(lookupA c n).getD defaultObj])])
      refine ⟨(rem ++ [n]).length + k, ?_⟩
      have hsplit : rem ++ n :: rest = (rem ++ [n]) ++ rest := by simp
      rw [hk, hsplit, ← List.drop_drop, List.drop_left]
      simp
    · have hb : ((n + 1) % gs == 0) = false := by simp [he]
      cases rest with
      | nil =>
        rw [pushLoop_singleton_noEg gs c hb]
        exact ⟨0, by simp⟩
      | cons m rest' =>
        rw [pushLoop_cons_mid gs c hb (by simp)]
        obtain ⟨k, hk⟩ :=
          ih (set ++ [(lookupA c n).getD defaultObj]) (rem ++ [n]) ups
        refine ⟨k, ?_⟩
        rw [hk]
        simp

/-- When the `set` accumulator mirrors the `remainders` accumulator and the
loop ends with a non-empty remainder, the batch of uploads ends with the
object keyed by the remainder's last element holding exactly the remainder's
records — the trailing partial group. -/
theorem pushLoop_ups_last (gs : Nat) (c : List (Nat × AncientObjectS3)) :
    ∀ (l set rem : List _) (ups : List _),
      set = rem.map (fun n => (lookupA c n).getD defaultObj) →
      l ≠ [] → (pushLoop gs c l set rem ups).1 ≠ [] →
      ∃ pre, (pushLoop gs c l set rem ups).2 =
        pre ++ [(keyForBase gs ((pushLoop gs c l set rem ups).1.getLastD 0),
          ((pushLoop gs c l set rem ups).1).map
            (fun n => (lookupA c n).getD defaultObj))] := by
  intro l
  induction l with
  | nil =>
    intro set rem ups _ hne _
    exact absurd rfl hne
  | cons n rest ih =>
    intro set rem ups hset _ hres
    by_cases he : (n + 1) % gs = 0
    · have hb : ((n + 1) % gs == 0) = true := by simp [he]
      rw [pushLoop_cons_eg gs c hb] at hres ⊢
      cases rest with
      | nil =>
        exfalso
        apply hres
        simp [pushLoop]
      | cons m rest' =>
        exact ih _ _ _ (by simp) (by simp) hres
    · have hb : ((n + 1) % gs == 0) = false := by simp [he]
      cases rest with
      | nil =>
        rw [pushLoop_singleton_noEg gs c hb]
        refine ⟨ups, ?_⟩
        simp [hset, List.getLastD_concat]
      | cons m rest' =>
        rw [pushLoop_cons_mid gs c hb (by simp)] at hres ⊢
        refine ih _ _ _ ?_ (by simp) hres
        simp [hset]

end FreezerS3

namespace FreezerS3

/-! ## C5 -/

/-- Field-wise extensionality for the store state. -/
theorem freezerStateExt (a b : FreezerState)
    (h1 : a.frozen = b.frozen) (h2 : a.objectGroupSize = b.objectGroupSize)
    (h3 : a.cache = b.cache) (h4 : a.cacheS = b.cacheS)
    (h5 : a.retrieved = b.retrieved) (h6 : a.remoteGroups = b.remoteGroups)
    (h7 : a.remoteMarker = b.remoteMarker) : a = b := by
  cases a
  cases b
  simp_all

/-- Counterexample to C5 as stated: a second Sync with no intervening Append
performs an upload again — the trailing partial group object is re-uploaded —
rather than "no uploads". -/
theorem c5_second_sync_uploads :
    syncCore c5St = .ok (c5StSynced, [(0, [mkObj 0])]) ∧
    syncCore c5StSynced = .ok (c5StSynced, [(0, [mkObj 0])]) ∧
    ([(0, [mkObj 0])] : List (Nat × List AncientObjectS3)) ≠ [] := by
  decide

/-- C5 (amended): calling Sync twice in a row with no intervening Append
leaves the entire store state — FrozenCount, the durable marker, the write
cache and the remote objects — unchanged by the second call; the second call
does, however, re-upload the trailing partial group object with identical
content (Sync is idempotent on state, not on I/O). -/
theorem c5_sync_idempotent_on_state (st st' : FreezerState)
    (h : sync st = .ok st') : sync st' = .ok st' := by
  rcases sync_ok_inv st st' h with ⟨hc, he⟩ | ⟨hc, hs, he⟩ | ⟨hc, hs, hh, hr, hrh, he⟩
  · rw [he]
    exact sync_empty_cache st hc
  · rw [he, sync_empty_cacheS { st with remoteMarker := some st.frozen }
      (by simpa using hc) (by simpa using hs)]
  · rw [he]
    by_cases hc2 :
      ({ pushedState st with remoteMarker := some st.frozen } : FreezerState).cache = []
    · exact sync_empty_cache _ hc2
    · have hEG : ∀ n ∈ pushRem st, (n + 1) % st.objectGroupSize ≠ 0 :=
        pushLoop_rem_egFree st.objectGroupSize st.cache st.cacheS [] [] [] (by simp)
      have hrem2 :
          pushRem { pushedState st with remoteMarker := some st.frozen } =
            pushRem st := by
        show (pushLoop st.objectGroupSize
            (st.cacheS.foldl
              (fun m n => if sliceIndexOf (pushRem st) n < 0 then eraseA m n else m)
              st.cache)
            (pushRem st) [] [] []).1 = pushRem st
        rw [pushLoop_rem_of_egFree st.objectGroupSize _ (pushRem st) [] [] [] hEG]
        rfl
      have hlook : ∀ n ∈ pushRem st,
          lookupA (st.cacheS.foldl
            (fun m n => if sliceIndexOf (pushRem st) n < 0 then eraseA m n else m)
            st.cache) n = lookupA st.cache n :=
        fun n hn => foldl_eraseIf_lookup (pushRem st) st.cacheS st.cache n hn
      have hups2 :
          pushUps { pushedState st with remoteMarker := some st.frozen } =
            [(keyForBase st.objectGroupSize ((pushRem st).getLastD 0),
              (pushRem st).map (fun n => (lookupA st.cache n).getD defaultObj))] := by
        show (pushLoop st.objectGroupSize
            (st.cacheS.foldl
              (fun m n => if sliceIndexOf (pushRem st) n < 0 then eraseA m n else m)
              st.cache)
            (pushRem st) [] [] []).2 = _
        rw [pushLoop_ups_of_egFree st.objectGroupSize _ (pushRem st) [] [] [] hEG hr]
        simp only [List.nil_append]
        have hmap : (pushRem st).map (fun n => (lookupA
              (st.cacheS.foldl
                (fun m n => if sliceIndexOf (pushRem st) n < 0 then eraseA m n else m)
                st.cache) n).getD defaultObj) =
            (pushRem st).map (fun n => (lookupA st.cache n).getD defaultObj) :=
          List.map_congr_left (fun n hn => by rw [hlook n hn])
        rw [hmap]
      obtain ⟨pre, hpre⟩ := pushLoop_ups_last st.objectGroupSize st.cache st.cacheS
        [] [] [] (by simp) hs hr
      have hpre' : pushUps st = pre ++
          [(keyForBase st.objectGroupSize ((pushRem st).getLastD 0),
            (pushRem st).map (fun n => (lookupA st.cache n).getD defaultObj))] := hpre
      have hlookup :
          lookupA (({ pushedState st with
              remoteMarker := some st.frozen } : FreezerState).remoteGroups)
            (keyForBase st.objectGroupSize ((pushRem st).getLastD 0)) =
            some ((pushRem st).map (fun n => (lookupA st.cache n).getD defaultObj)) := by
        show lookupA ((pushUps st).foldl (fun m u => insertA m u.1 u.2) st.remoteGroups)
          _ = _
        rw [hpre', List.foldl_append]
        simp only [List.foldl_cons, List.foldl_nil]
        exact lookupA_insertA_self _ _ _
      have hs2 :
          ({ pushedState st with remoteMarker := some st.frozen } : FreezerState).cacheS
            ≠ [] := hr
      have hh2 :
          ({ pushedState st with remoteMarker := some st.frozen } : FreezerState).cacheS.headD 0 %
            ({ pushedState st with remoteMarker := some st.frozen } : FreezerState).objectGroupSize
            = 0 := hrh
      have hr2 : pushRem { pushedState st with remoteMarker := some st.frozen } ≠ [] := by
        rw [hrem2]
        exact hr
      have hrh2 :
          (pushRem { pushedState st with remoteMarker := some st.frozen }).headD 0 %
            ({ pushedState st with remoteMarker := some st.frozen } : FreezerState).objectGroupSize
            = 0 := by
        rw [hrem2]
        exact hrh
      rw [sync_eq _ hc2 hs2 hh2 hr2 hrh2]
      congr 1
      apply freezerStateExt
      · rfl
      · rfl
      · show List.foldl _ _ _ = _
        have hrw :
            ({ pushedState st with remoteMarker := some st.frozen } : FreezerState).cacheS.foldl
              (fun m n => if sliceIndexOf
                (pushRem { pushedState st with remoteMarker := some st.frozen }) n < 0
                then eraseA m n else m)
              ({ pushedState st with remoteMarker := some st.frozen } : FreezerState).cache =
            (pushRem st).foldl
              (fun m n => if sliceIndexOf (pushRem st) n < 0 then eraseA m n else m)
              ({ pushedState st with remoteMarker := some st.frozen } : FreezerState).cache := by
          rw [hrem2]
          rfl
        rw [hrw]
        exact foldl_eraseIf_id (pushRem st) (pushRem st) _
          (fun v hv => by simp [sliceIndexOf_neg_iff, hv])
      · exact hrem2
      · rfl
      · show List.foldl _ _ _ = _
        rw [hups2]
        simp only [List.foldl_cons, List.foldl_nil]
        exact insertA_of_lookupA _ _ _ hlookup
      · rfl

/-- Witness for C5's amended statement at a concrete input: syncing the
already-synced `c5StSynced` returns it unchanged. -/
theorem c5_sync_idempotent_on_state_witness :
    sync c5StSynced = .ok c5StSynced :=
  c5_sync_idempotent_on_state c5St c5StSynced (by decide)

end FreezerS3

namespace FreezerS3

/-! ## C6 -/

/-- For an ascending list, the minimum is the head. -/
theorem minOf_eq_headD (l : List Nat) (hp : List.Pairwise (· ≤ ·) l)
    (hne : l ≠ []) : minOf l = l.headD 0 := by
  cases l with
  | nil => exact absurd rfl hne
  | cons n t =>
    show t.foldl Nat.min n = n
    have hle : ∀ m ∈ t, n ≤ m := (List.pairwise_cons.mp hp).1
    clear hp hne
    induction t generalizing n with
    | nil => rfl
    | cons m u ih =>
      simp only [List.foldl_cons]
      have h1 : n ≤ m := hle m (by simp)
      have h2 : n.min m = n := Nat.min_eq_left h1
      rw [h2]
      exact ih n (fun w hw => hle w (by simp [hw]))

/-- A non-empty `take` keeps the head. -/
theorem headD_take (l : List Nat) (i : Nat) (h : l.take i ≠ []) :
    (l.take i).headD 0 = l.headD 0 := by
  cases l with
  | nil => simp at h
  | cons n t =>
    cases i with
    | zero => simp at h
    | succ j => rfl

/-- Inserting into an association list never empties it. -/
theorem insertA_ne_nil {α : Type} (m : List (Nat × α)) (k : Nat) (v : α) :
    insertA m k v ≠ [] := by
  cases m with
  | nil => simp [insertA]
  | cons a t =>
    obtain ⟨a1, a2⟩ := a
    by_cases ha : a1 = k <;> simp [insertA, ha]

/-- Folding record inserts over a non-empty list (or from a non-empty map)
yields a non-empty map. -/
theorem foldl_insertA_ne_nil (l : List AncientObjectS3)
    (m : List (Nat × AncientObjectS3)) (h : m ≠ [] ∨ l ≠ []) :
    l.foldl (fun m t => insertA m t.number t) m ≠ [] := by
  induction l generalizing m with
  | nil =>
    rcases h with h | h
    · exact h
    · exact absurd rfl h
  | cons t u ih =>
    simp only [List.foldl_cons]
    exact ih (insertA m t.number t) (Or.inl (insertA_ne_nil m t.number t))

/-- Appending preserves the invariant when the appended number is at
least every cached number. -/
theorem append_preserves_inv (st : FreezerState) (n : Nat) (o : AncientObjectS3)
    (st' : FreezerState) (hinv : Inv st) (hord : ∀ m ∈ st.cacheS, m ≤ n)
    (h : appendAncient st n o = .ok st') : Inv st' := by
  simp only [appendAncient] at h
  split at h
  · exact absurd h (by simp)
  · rename_i hal
    cases h
    constructor
    · exact List.pairwise_append.mpr
        ⟨hinv.1, List.pairwise_singleton _ n, fun a ha b hb => by
          simp at hb
          exact hb ▸ hord a ha⟩
    · intro _
      simpa using hal

/-- A successful `pushCache` leaves an ascending, aligned number slice
(the remainder is a suffix of the input slice and the alignment check was
passed). -/
theorem pushCacheCore_preserves_inv (st st1 : FreezerState)
    (ups : List (Nat × List AncientObjectS3))
    (hp : List.Pairwise (· ≤ ·) st.cacheS)
    (h : pushCacheCore st = .ok (st1, ups)) : Inv st1 := by
  by_cases hs : st.cacheS = []
  · rw [pushCacheCore_nil st hs] at h
    cases h
    exact ⟨hp, fun hne => absurd hs hne⟩
  · obtain ⟨hh, hr, hrh, hst1, -⟩ := pushCacheCore_ok_inv st st1 ups hs h
    subst hst1
    constructor
    · show List.Pairwise (· ≤ ·) (pushRem st)
      obtain ⟨k, hk⟩ := pushLoop_rem_drop st.objectGroupSize st.cache st.cacheS [] [] []
      have : pushRem st = st.cacheS.drop k := by
        rw [pushRem, hk]
        simp
      rw [this]
      exact hp.sublist (List.drop_sublist k st.cacheS)
    · intro _
      exact hrh

/-- Syncing preserves the invariant. -/
theorem sync_preserves_inv (st st' : FreezerState) (hinv : Inv st)
    (h : sync st = .ok st') : Inv st' := by
  rcases sync_ok_inv st st' h with ⟨-, he⟩ | ⟨-, hs, he⟩ | ⟨-, hs, hh, hr, hrh, he⟩
  · exact he ▸ hinv
  · subst he
    exact ⟨hinv.1, fun hne => hinv.2 hne⟩
  · subst he
    constructor
    · show List.Pairwise (· ≤ ·) (pushRem st)
      obtain ⟨k, hk⟩ := pushLoop_rem_drop st.objectGroupSize st.cache st.cacheS [] [] []
      have : pushRem st = st.cacheS.drop k := by
        rw [pushRem, hk]
        simp
      rw [this]
      exact hinv.1.sublist (List.drop_sublist k st.cacheS)
    · intro _
      exact hrh

end FreezerS3

namespace FreezerS3

/-- Truncating preserves the invariant. -/
theorem truncate_preserves_inv (st : FreezerState) (items : Nat)
    (st' : FreezerState) (hinv : Inv st)
    (h : truncateAncients st items = .ok st') : Inv st' := by
  simp only [truncateAncients] at h
  split at h
  · exact absurd h (by simp)
  split at h
  · exact absurd h (by simp)
  rename_i hs hal
  split at h
  · -- target found in the cache: cacheS is truncated in place
    rename_i i hidx
    cases h
    constructor
    · exact hinv.1.sublist (List.take_sublist i st.cacheS)
    · intro hne
      show (st.cacheS.take i).headD 0 % st.objectGroupSize = 0
      rw [headD_take st.cacheS i hne]
      exact not_not.mp hal
  · -- remote rebuild path (the second alignment re-check is the same
    -- condition as the first and was already resolved by the split above)
    split at h
    · exact absurd h (by simp)
    · exact absurd h (by simp)
    rename_i cache2 cacheS2 heq
    -- resolve the final match on the pushed state
    split at h
    · rename_i st2 hap
      cases h
      -- resolve how the cache was rebuilt
      split at heq
      · -- non-aligned target: group downloaded and filtered, slice sorted
        rename_i hmod
        split at heq
        · exact absurd heq (by simp)
        rename_i target hlk
        cases heq
        have hsorted : List.Pairwise (· ≤ ·)
            (List.insertionSort (· ≤ ·)
              ((target.filter (fun t => t.number < items)).map
                (fun t => t.number))) :=
          List.sorted_insertionSort (· ≤ ·) _
        -- resolve whether the recovered prefix was pushed
        split at hap
        · split at hap
          · rename_i hpc
            cases hap
            have hinv2 := pushCacheCore_preserves_inv _ _ _ hsorted hpc
            exact ⟨hinv2.1, fun hne => hinv2.2 hne⟩
          · exact absurd hap (by simp)
          · exact absurd hap (by simp)
        · rename_i hlen
          cases hap
          have hknil : target.filter (fun t => t.number < items) = [] := by
            by_contra hk
            apply hlen
            have hne := foldl_insertA_ne_nil
              (target.filter (fun t => t.number < items)) [] (Or.inr hk)
            show 0 < _
            exact List.length_pos.mpr hne
          constructor
          · exact hsorted
          · intro hne
            exfalso
            apply hne
            show List.insertionSort (· ≤ ·)
              ((target.filter (fun t => t.number < items)).map
                (fun t => t.number)) = []
            rw [hknil]
            rfl
      · -- aligned target: the cache is simply emptied
        cases heq
        split at hap
        · rename_i hlen
          simp at hlen
        · cases hap
          exact ⟨List.Pairwise.nil, fun hne => absurd rfl hne⟩
    · exact absurd h (by simp)
    · exact absurd h (by simp)

end FreezerS3

namespace FreezerS3

/-- Running any in-order operation sequence preserves the invariant. -/
theorem run_preserves_inv (ops : List Op) : ∀ (st st' : FreezerState),
    Inv st → seqGood st ops = true → run st ops = .ok st' → Inv st' := by
  induction ops with
  | nil =>
    intro st st' hinv _ h
    simp only [run] at h
    cases h
    exact hinv
  | cons op rest ih =>
    intro st st' hinv hg h
    simp only [run] at h
    rcases hap : applyOp st op with st1 | e | m
    · rw [hap] at h
      simp only [seqGood, hap] at hg
      obtain ⟨hok, hg'⟩ := (Bool.and_eq_true _ _).mp hg
      have hinv1 : Inv st1 := by
        cases op with
        | append n o =>
          refine append_preserves_inv st n o st1 hinv ?_ hap
          intro m hm
          simpa using (List.all_eq_true.mp hok) m hm
        | flush => exact sync_preserves_inv st st1 hinv hap
        | truncate items => exact truncate_preserves_inv st items st1 hinv hap
      exact ih st1 st' hinv1 hg' h
    · rw [hap] at h
      exact absurd h (by simp)
    · rw [hap] at h
      exact absurd h (by simp)

/-- Counterexample to C6 as stated: because `AppendAncient` validates only
`cacheS[0]`, a sequence of Append/Sync/Append operations can complete with no
error and no panic yet leave the write cache with smallest number 2, which is
not a multiple of the group size 4. -/
theorem c6_out_of_order_append_breaks_alignment :
    run (initState 4) c6BadOps = .ok c6BadSt ∧
    c6BadSt.cacheS ≠ [] ∧
    minOf c6BadSt.cacheS % c6BadSt.objectGroupSize ≠ 0 := by
  decide

/-- C6 (amended): after every sequence of Appends whose numbers are at least
every number already cached (as in-sequence appends always are), Syncs, and
Truncates that runs from a fresh store to a successful
completion, the smallest number in the write cache — if any — is a multiple
of the configured group size.  (The alignment checks themselves fire as
panics, a fatal fault, never as a returned error, as the `Outcome.panic`
cases of the operations show.) -/
theorem c6_alignment_invariant (gs : Nat) (ops : List Op) (st' : FreezerState)
    (hg : seqGood (initState gs) ops = true)
    (hr : run (initState gs) ops = .ok st')
    (hne : st'.cacheS ≠ []) :
    minOf st'.cacheS % st'.objectGroupSize = 0 := by
  have hinv : Inv st' :=
    run_preserves_inv ops (initState gs) st'
      ⟨List.Pairwise.nil, fun hcon => absurd rfl hcon⟩ hg hr
  rw [minOf_eq_headD st'.cacheS hinv.1 hne]
  exact hinv.2 hne

/-- Witness for C6's amended statement at a concrete input. -/
theorem c6_alignment_invariant_witness :
    minOf c6WSt.cacheS % c6WSt.objectGroupSize = 0 :=
  c6_alignment_invariant 4 [Op.append 0 (mkObj 0)] c6WSt (by decide) (by decide)
    (by decide)

end FreezerS3
